import Mathlib

/-!
Verification development for the ics2radicale three-way merge and filter
engine.  The definitions below are a shallow embedding of
`src/ics2radicale/merge_events.py` and `src/ics2radicale/import_ics.py`:
pure Python functions become Lean functions, the mutable per-event loop
state becomes explicit state passing, Python exceptions become `Except`,
and the nondeterministic iteration order of the Python `set` of property
keys becomes an explicit `order : List String` parameter.  The wall clock
read by `datetime.now()` becomes an explicit `now : Int` parameter.
-/

deriving instance DecidableEq for Except

namespace Ics2Radicale

/-- Raw property values as stored inside an `icalendar.Event`
(`vText`, `vDDDTypes`, `vCategory`, an unrecognized-kind fallback,
and Python `None`, which `Event.get` returns for an absent key and which a
merged event can end up storing). -/
inductive RawVal where
  | vText (s : String)
  | vDDD (t : Int)
  | vCategory (cats : List String)
  | vOther (raw : String)
  | pyNone
deriving DecidableEq, Repr

/-- Canonical (unpacked) forms produced by `unpack_value`:
plain text, a date/time instant, a category list, the `to_ical`
fallback encoding, and Python `None`. -/
inductive CanonVal where
  | text (s : String)
  | instant (t : Int)
  | cats (l : List String)
  | blob (s : String)
  | vNone
deriving DecidableEq, Repr

/-- Embedding of `unpack_value` (merge_events.py lines 10-23) restricted to a
single property value: `vDDDTypes` unpacks to its instant, `vCategory` to the
list of its category strings, `vText` to its text, an unrecognized kind to its
`to_ical` encoding, and anything else (here: `None`) is returned as is. -/
def unpack_value : RawVal → CanonVal
  | .vText s => .text s
  | .vDDD t => .instant t
  | .vCategory l => .cats l
  | .vOther raw => .blob raw
  | .pyNone => .vNone

/-- An event is a mapping from property names to raw values; we represent the
Python dict as an association list (keys are unique in every event the
program builds, and all lookups return the first binding, as a dict would). -/
abbrev MEvent := List (String × RawVal)

/-- Dict lookup: `event.get(key)` without the `None` default. -/
def lookupEv : MEvent → String → Option RawVal
  | [], _ => none
  | (k, v) :: rest, q => if k = q then some v else lookupEv rest q

/-- Python `key in event`. -/
def containsKey (e : MEvent) (k : String) : Bool :=
  (lookupEv e k).isSome

/-- Python `event.get(key)`, whose default is `None`. -/
def pyGet (e : MEvent) (k : String) : RawVal :=
  (lookupEv e k).getD .pyNone

/-- Python `event.keys()`. -/
def evKeys (e : MEvent) : List String :=
  e.map Prod.fst

/-- Dict assignment `event[key] = value`: replace the binding if the key is
present, otherwise append a new binding. -/
def setItem : MEvent → String → RawVal → MEvent
  | [], k, v => [(k, v)]
  | (k0, v0) :: rest, k, v =>
    if k0 = k then (k, v) :: rest else (k0, v0) :: setItem rest k v

/-- Key sets of two events coincide (Python dict equality compares key sets
first). -/
def keysEqB (a b : MEvent) : Bool :=
  (evKeys a).all (fun k => containsKey b k) &&
  (evKeys b).all (fun k => containsKey a k)

/-- Equality of the unpacked dicts `unpack_value(a) == unpack_value(b)`
(merge_events.py line 16 builds `{x: unpack_value(y) for x, y in items}`):
same key sets and canonically equal values at every key. -/
def canonEqB (a b : MEvent) : Bool :=
  keysEqB a b &&
  (evKeys a).all (fun k => decide (unpack_value (pyGet a k) = unpack_value (pyGet b k)))

/-- Raw Python `==` on two events (dict equality over the raw stored values),
as used by `process_event`'s `if event == existing` check. -/
def eventsEqB (a b : MEvent) : Bool :=
  keysEqB a b &&
  (evKeys a).all (fun k => decide (lookupEv a k = lookupEv b k))

/-- The five merge policies of the `Strategy` enum. -/
inductive Strategy where
  | our
  | upstream
  | newer
  | mergeOur
  | mergeUpstream
deriving DecidableEq, Repr

/-- Errors the merge engine can raise.  `keyError k` is Python `KeyError: k`
from `event[k]` on an absent key; `notImplemented` is the bare
`NotImplementedError` of the conflict branch.  `unresolvedConflict` is the
error shape the specification demands for an unresolved conflict (naming the
conflicting property and the base event's UID); the source never constructs
it, which is what the counterexample for C1 exhibits. -/
inductive MergeError where
  | keyError (k : String)
  | notImplemented
  | unresolvedConflict (prop : String) (uid : String)
deriving DecidableEq, Repr

/-- Python `event[key]`: the value, or `KeyError` when absent. -/
def getItem (e : MEvent) (k : String) : Except MergeError RawVal :=
  match lookupEv e k with
  | some v => .ok v
  | none => .error (.keyError k)

/-- Python `<` between the two looked-up property values.  The source only
ever orders date/time values (`LAST-MODIFIED` timestamps); ordering of other
raw kinds is not defined by the source and is never exercised, so it is
rendered as `false` here. -/
def rawLt : RawVal → RawVal → Bool
  | .vDDD a, .vDDD b => a < b
  | _, _ => false

/-- Embedding of `MergeStrategy.__select_newer_event__` (merge_events.py
lines 50-55).  Note the source's mistyped key: it reads
`our["LAST-MODIFIED"]` but `upstream["LAST_MODIFIED"]` (underscore). -/
def select_newer_event (our upstream : MEvent) : Except MergeError MEvent :=
  match getItem our "LAST-MODIFIED" with
  | .error e => .error e
  | .ok a =>
    match getItem upstream "LAST_MODIFIED" with
    | .error e => .error e
    | .ok b => if rawLt a b then .ok upstream else .ok our

/-- One iteration of the property loop of `__merge_events__` (merge_events.py
lines 70-113), acting on the accumulating `merged` event. -/
def mergeKeyStep (s : Strategy) (base_event local_event upstream : MEvent) (now : Int)
    (merged : MEvent) (prop : String) : Except MergeError MEvent :=
  if prop = "LAST-MODIFIED" then
    .ok (setItem merged "LAST-MODIFIED" (.vDDD now))
  else
    let local_prop := pyGet local_event prop
    let local_val := unpack_value local_prop
    let upstream_prop := pyGet upstream prop
    let upstream_val := unpack_value upstream_prop
    let base_prop := pyGet base_event prop
    let base_val := unpack_value base_prop
    if local_val = upstream_val ∧ upstream_val = base_val then
      .ok (setItem merged prop base_prop)
    else if local_val = upstream_val then
      .ok (setItem merged prop local_prop)
    else if local_val = base_val then
      .ok (if containsKey upstream prop then setItem merged prop upstream_prop else merged)
    else if upstream_val = base_val then
      .ok (if containsKey local_event prop then setItem merged prop local_prop else merged)
    else if ¬ containsKey local_event prop then
      .ok (setItem merged prop upstream_prop)
    else if ¬ containsKey upstream prop then
      .ok (setItem merged prop local_prop)
    else
      match s with
      | .mergeUpstream => .ok (setItem merged prop upstream_prop)
      | .mergeOur => .ok (setItem merged prop local_prop)
      | _ => .error .notImplemented

/-- The value the loop body assigns to a key (`some v`: `merged[prop] = v`;
`none`: the key is omitted), or the error it raises.  This is the per-key
reading of `mergeKeyStep`, proved equivalent below. -/
def keyDecision (s : Strategy) (base_event local_event upstream : MEvent) (now : Int)
    (prop : String) : Except MergeError (Option RawVal) :=
  if prop = "LAST-MODIFIED" then
    .ok (some (.vDDD now))
  else
    let local_prop := pyGet local_event prop
    let local_val := unpack_value local_prop
    let upstream_prop := pyGet upstream prop
    let upstream_val := unpack_value upstream_prop
    let base_prop := pyGet base_event prop
    let base_val := unpack_value base_prop
    if local_val = upstream_val ∧ upstream_val = base_val then
      .ok (some base_prop)
    else if local_val = upstream_val then
      .ok (some local_prop)
    else if local_val = base_val then
      .ok (if containsKey upstream prop then some upstream_prop else none)
    else if upstream_val = base_val then
      .ok (if containsKey local_event prop then some local_prop else none)
    else if ¬ containsKey local_event prop then
      .ok (some upstream_prop)
    else if ¬ containsKey upstream prop then
      .ok (some local_prop)
    else
      match s with
      | .mergeUpstream => .ok (some upstream_prop)
      | .mergeOur => .ok (some local_prop)
      | _ => .error .notImplemented

/-- The `for prop in all_keys` loop of `__merge_events__`, iterating in the
given enumeration `order` of the key set. -/
def mergeLoop (s : Strategy) (base_event local_event upstream : MEvent) (now : Int) :
    List String → MEvent → Except MergeError MEvent
  | [], merged => .ok merged
  | prop :: rest, merged =>
    match mergeKeyStep s base_event local_event upstream now merged prop with
    | .error e => .error e
    | .ok merged1 => mergeLoop s base_event local_event upstream now rest merged1

/-- Embedding of `MergeStrategy.__merge_events__` (merge_events.py lines
57-114).  `order` stands for the iteration order of the Python set
`all_keys = set(base) | set(local_event) | set(upstream)`; faithful instantiations
enumerate exactly the keys of `evKeys base_event ++ evKeys local_event ++
evKeys upstream` without repetition. -/
def merge_events (s : Strategy) (base_event local_event upstream : MEvent) (now : Int)
    (order : List String) : Except MergeError MEvent :=
  if canonEqB base_event local_event && canonEqB local_event upstream then
    .ok base_event
  else
    mergeLoop s base_event local_event upstream now order []

/-- Embedding of `MergeStrategy.apply` (merge_events.py lines 116-135).
`ok none` is the Python `None` returned for the `OUR` strategy. -/
def applyStrategy (s : Strategy) (upstream existing original_version : MEvent)
    (now : Int) (order : List String) : Except MergeError (Option MEvent) :=
  match s with
  | .our => .ok none
  | .upstream => .ok (some upstream)
  | .newer =>
    match select_newer_event existing upstream with
    | .error e => .error e
    | .ok ev => .ok (some ev)
  | .mergeOur =>
    match merge_events .mergeOur original_version existing upstream now order with
    | .error e => .error e
    | .ok ev => .ok (some ev)
  | .mergeUpstream =>
    match merge_events .mergeUpstream original_version existing upstream now order with
    | .error e => .error e
    | .ok ev => .ok (some ev)

/-- The outcome of reconciling one snapshot triple: skip the write, or
persist the given event. -/
inductive Outcome where
  | noChange
  | write (e : MEvent)
deriving DecidableEq, Repr

/-- The specification's `resolve`: `MergeStrategy.apply` composed with the
caller's no-write checks in `process_event` (import_ics.py lines 123-134),
namely `if event == existing: return` and `if event is None: return`. -/
def resolve (s : Strategy) (base_event local_event upstream : MEvent) (now : Int)
    (order : List String) : Except MergeError Outcome :=
  match applyStrategy s upstream local_event base_event now order with
  | .error e => .error e
  | .ok none => .ok .noChange
  | .ok (some ev) => if eventsEqB ev local_event then .ok .noChange else .ok (.write ev)

/-- Canonical identity of two reconciliation results: equal errors, or
outcomes that agree up to canonical equality of the written event. -/
def outcomesCanonEq : Except MergeError Outcome → Except MergeError Outcome → Bool
  | .error a, .error b => decide (a = b)
  | .ok .noChange, .ok .noChange => true
  | .ok (.write a), .ok (.write b) => canonEqB a b
  | _, _ => false

/-- A regex atom of the fragment of Python regular expressions the program
exercises: a literal character, the word class `\w`, or `.`. -/
inductive RAtom where
  | lit (c : Char)
  | wordClass
  | anyChar
deriving DecidableEq, Repr

/-- A regex piece: a single atom, or an atom under `+` or `*`. -/
inductive RPiece where
  | once (a : RAtom)
  | plus (a : RAtom)
  | star (a : RAtom)
deriving DecidableEq, Repr

/-- Does an atom match one character (ASCII reading of `\w`)? -/
def atomMatch : RAtom → Char → Bool
  | .lit c, d => c = d
  | .wordClass, d => d.isAlphanum || d = '_'
  | .anyChar, d => d != '\n'

/-- Anchored matching of a piece list against a character list, as
`re.match` does: succeed as soon as all pieces are consumed (a prefix of the
string may remain unmatched).  The `fuel` argument only bounds the recursion
so that evaluation is structural; every call chain shortens the pair
(string, pieces), so any fuel beyond `(|s|+1)*(|pieces|+1)` is enough and
the bound never bites. -/
def reAux : Nat → List RPiece → List Char → Bool
  | 0, _, _ => false
  | _ + 1, [], _ => true
  | fuel + 1, .once a :: rest, s =>
    match s with
    | [] => false
    | c :: s1 => atomMatch a c && reAux fuel rest s1
  | fuel + 1, .plus a :: rest, s =>
    match s with
    | [] => false
    | c :: s1 => atomMatch a c && reAux fuel (.star a :: rest) s1
  | fuel + 1, .star a :: rest, s =>
    reAux fuel rest s ||
      (match s with
       | [] => false
       | c :: s1 => atomMatch a c && reAux fuel (.star a :: rest) s1)

/-- Translate a pattern string of the exercised regex fragment into pieces:
literals, `\w`, `.`, with postfix `+` or `*`.  `none` on a malformed pattern
(Python would raise `re.error`; no such pattern occurs in the repository).
`fuel` again only makes the recursion structural; each step consumes at
least one character, so `|chars| + 1` is always enough. -/
def parseRegex : Nat → List Char → Option (List RPiece)
  | 0, _ => none
  | _ + 1, [] => some []
  | _ + 1, '\\' :: [] => none
  | fuel + 1, '\\' :: c :: rest =>
    let a := if c = 'w' then RAtom.wordClass else RAtom.lit c
    (match rest with
     | '+' :: r => (parseRegex fuel r).map (fun ps => RPiece.plus a :: ps)
     | '*' :: r => (parseRegex fuel r).map (fun ps => RPiece.star a :: ps)
     | r => (parseRegex fuel r).map (fun ps => RPiece.once a :: ps))
  | _ + 1, '+' :: _ => none
  | _ + 1, '*' :: _ => none
  | fuel + 1, c :: rest =>
    let a := if c = '.' then RAtom.anyChar else RAtom.lit c
    (match rest with
     | '+' :: r => (parseRegex fuel r).map (fun ps => RPiece.plus a :: ps)
     | '*' :: r => (parseRegex fuel r).map (fun ps => RPiece.star a :: ps)
     | r => (parseRegex fuel r).map (fun ps => RPiece.once a :: ps))

/-- Python `bool(re.match(pattern, string))`: anchored match of the compiled
pattern at the start of `string`. -/
def reMatch (pattern s : String) : Bool :=
  match parseRegex (pattern.toList.length + 1) pattern.toList with
  | some pieces => reAux ((s.toList.length + 1) * (pieces.length + 1)) pieces s.toList
  | none => false

/-- Errors of the filter engine.  All of `missingParameter`,
`typeIncompatible`, `invalidOperator` and `unsupportedAction` are Python
`ValueError`s with distinct messages; `keyErrorParam` is the `KeyError`
raised by `test["action_field"]` / `test["action_value"]`. -/
inductive FilterError where
  | missingParameter
  | typeIncompatible
  | invalidOperator
  | unsupportedAction (a : String)
  | keyErrorParam (k : String)
deriving DecidableEq, Repr

/-- Python substring test `needle in haystack` on strings. -/
def subStrB (needle hay : List Char) : Bool :=
  needle.isPrefixOf hay ||
    match hay with
    | [] => false
    | _ :: rest => subStrB needle rest

/-- Embedding of `apply_operator` (import_ics.py lines 51-73).  At its only
call site `value1` is the rule's literal (a TOML string) and `value2` is the
event's field value, so the embedding types them accordingly.  A `TypeError`
from applying an operator to incompatible values is re-raised as the
`ValueError` rendered here as `typeIncompatible`. -/
def apply_operator (value1 : String) (value2 : RawVal) (operator : String) :
    Except FilterError Bool :=
  if operator = "==" then
    .ok (match value2 with
         | .vText s => decide (value1 = s)
         | _ => false)
  else if operator = "!=" then
    .ok (match value2 with
         | .vText s => decide (value1 ≠ s)
         | _ => true)
  else if operator = "in" then
    match value2 with
    | .vText s => .ok (subStrB value1.toList s.toList)
    | .vCategory l => .ok (decide (value1 ∈ l))
    | _ => .error .typeIncompatible
  else if operator = "not in" then
    match value2 with
    | .vText s => .ok (! subStrB value1.toList s.toList)
    | .vCategory l => .ok (decide (value1 ∉ l))
    | _ => .error .typeIncompatible
  else if operator = "match" then
    match value2 with
    | .vText s => .ok (reMatch s value1)
    | _ => .error .typeIncompatible
  else if operator = "not match" then
    match value2 with
    | .vText s => .ok (! reMatch s value1)
    | _ => .error .typeIncompatible
  else
    .error .invalidOperator

/-- One filter rule, a TOML table with optional entries (absent entries are
`none`; `filter_event` supplies the defaults). -/
structure FilterRule where
  field : Option String
  operator : Option String
  action : Option String
  value : Option String
  action_field : Option String
  action_value : Option String
deriving DecidableEq, Repr

/-- One iteration of the rule loop of `filter_event` (import_ics.py lines
78-101), acting on the event (mutable via the `set` action) and the
`remove_event` tri-state (`none` / `some true` / `some false`). -/
def filterStep (ev : MEvent) (remove_event : Option Bool) (test : FilterRule) :
    Except FilterError (MEvent × Option Bool) :=
  let field := test.field.getD "SUMMARY"
  let operator := test.operator.getD "=="
  let action := test.action.getD "remove"
  match test.value with
  | none => .error .missingParameter
  | some value =>
    if ¬ containsKey ev field then
      .ok (ev, remove_event)
    else
      let field_value := pyGet ev field
      match apply_operator value field_value operator with
      | .error e => .error e
      | .ok false => .ok (ev, remove_event)
      | .ok true =>
        if action = "remove" ∧ remove_event = none then
          .ok (ev, some true)
        else if action = "keep" then
          .ok (ev, some false)
        else if action = "set" then
          match test.action_field with
          | none => .error (.keyErrorParam "action_field")
          | some af =>
            match test.action_value with
            | none => .error (.keyErrorParam "action_value")
            | some av => .ok (setItem ev af (.vText av), remove_event)
        else
          .error (.unsupportedAction action)

/-- The rule loop of `filter_event`. -/
def filterGo (ev : MEvent) (remove_event : Option Bool) :
    List FilterRule → Except FilterError (MEvent × Option Bool)
  | [] => .ok (ev, remove_event)
  | test :: rest =>
    match filterStep ev remove_event test with
    | .error e => .error e
    | .ok (ev1, rm1) => filterGo ev1 rm1 rest

/-- Embedding of `filter_event` (import_ics.py lines 76-104): run the rules
in order starting from `remove_event = None`, then drop the event iff the
final `remove_event` is truthy. -/
def filter_event (ev : MEvent) (filter_list : List FilterRule) :
    Except FilterError (Option MEvent) :=
  match filterGo ev none filter_list with
  | .error e => .error e
  | .ok (ev1, rm) => if rm.getD false then .ok none else .ok (some ev1)

/-- Errors that can escape `process_event`: a filter error (uncaught — the
`filter_event` call is outside the `try` block), a non-`ValueError` merge
error (the `except ValueError` clause does not catch `KeyError` or
`NotImplementedError`), the `KeyError` from `event["UID"]`, and the
`TypeError` raised by `Event.from_ical(None)` when the cached ancestor is
missing although the file exists. -/
inductive ProcError where
  | filterErr (e : FilterError)
  | mergeErr (e : MergeError)
  | uidKeyError
  | cacheLoadError
deriving DecidableEq, Repr

/-- The external state `process_event` reads and writes: the per-event files
of the calendar folder (keyed by file name) and the ancestor cache (keyed by
UID).  Serialization to and from ics text is outside the embedding, so both
hold events directly. -/
structure SyncState where
  files : List (String × MEvent)
  cache : List (String × MEvent)
deriving DecidableEq, Repr

/-- Lookup in a string-keyed store (files on disk, cache entries). -/
def storeGet : List (String × MEvent) → String → Option MEvent
  | [], _ => none
  | (k, v) :: rest, q => if k = q then some v else storeGet rest q

/-- Update of a string-keyed store. -/
def storeSet : List (String × MEvent) → String → MEvent → List (String × MEvent)
  | [], k, v => [(k, v)]
  | (k0, v0) :: rest, k, v =>
    if k0 = k then (k, v) :: rest else (k0, v0) :: storeSet rest k v

/-- Python `str(value)` for the property kinds we model (only ever applied
to the `UID`, which is text in every real event). -/
def pyStr : RawVal → String
  | .vText s => s
  | .vDDD t => toString t
  | .vCategory l => toString l
  | .vOther raw => raw
  | .pyNone => "None"

/-- The carriage-return hack of `process_event` (import_ics.py lines
139-141): strip `\r` from every string-valued field
(`field.replace("\r", "")` deletes every carriage return). -/
def stripCR (e : MEvent) : MEvent :=
  e.map (fun p =>
    match p.2 with
    | .vText s => (p.1, RawVal.vText (String.mk (s.toList.filter (fun c => c ≠ '\r'))))
    | v => (p.1, v))

/-- Embedding of `process_event` (import_ics.py lines 107-145).  `keyOrder`
supplies, per merge call, the iteration order of the key set (the Python
`set` order).  Control flow follows the source: filter first (errors
propagate), then the exists/cached case split, the strategy application with
its `event == existing` and `event is None` early returns, the
carriage-return hack, and the cache/file write. -/
def process_event (strategy : Strategy) (filter_list : List FilterRule)
    (keyOrder : MEvent → MEvent → MEvent → List String) (now : Int)
    (st : SyncState) (event : MEvent) : Except ProcError SyncState :=
  match lookupEv event "UID" with
  | none => .error .uidKeyError
  | some uidRaw =>
    let uid := pyStr uidRaw
    let filename := uid ++ ".ics"
    match filter_event event filter_list with
    | .error e => .error (.filterErr e)
    | .ok none => .ok st
    | .ok (some filtered) =>
      match storeGet st.files filename with
      | some existing =>
        match storeGet st.cache uid with
        | none => .error .cacheLoadError
        | some original_version =>
          match applyStrategy strategy filtered existing original_version now
              (keyOrder original_version existing filtered) with
          | .error e => .error (.mergeErr e)
          | .ok none => .ok st
          | .ok (some merged) =>
            if eventsEqB merged existing then
              .ok st
            else
              let ev1 := stripCR merged
              .ok ⟨storeSet st.files filename ev1, storeSet st.cache uid ev1⟩
      | none =>
        if (storeGet st.cache uid).isSome then
          .ok st
        else
          let ev1 := stripCR filtered
          .ok ⟨storeSet st.files filename ev1, storeSet st.cache uid ev1⟩

/-- Embedding of the event loop of `process_cal` (import_ics.py lines
154-160): each calendar subcomponent is a `(name, event)` pair; `VEVENT`
components are processed in order, others are skipped with a warning.  An
exception escaping `process_event` propagates — there is no per-event
`try`/`except` in the loop. -/
def process_cal (strategy : Strategy) (filter_list : List FilterRule)
    (keyOrder : MEvent → MEvent → MEvent → List String) (now : Int)
    (st : SyncState) : List (String × MEvent) → Except ProcError SyncState
  | [] => .ok st
  | (name, event) :: rest =>
    if name = "VEVENT" then
      match process_event strategy filter_list keyOrder now st event with
      | .error e => .error e
      | .ok st1 => process_cal strategy filter_list keyOrder now st1 rest
    else
      process_cal strategy filter_list keyOrder now st rest

theorem lookupEv_setItem (e : MEvent) (k : String) (v : RawVal) (q : String) :
    lookupEv (setItem e k v) q = if k = q then some v else lookupEv e q := by
  induction e with
  | nil => simp [setItem, lookupEv]
  | cons p rest ih =>
    obtain ⟨k0, v0⟩ := p
    by_cases h : k0 = k
    · subst h
      simp only [setItem, if_pos rfl, lookupEv]
      by_cases hq : k0 = q
      · simp [hq]
      · simp [hq]
    · simp only [setItem, if_neg h, lookupEv]
      by_cases hq : k0 = q
      · subst hq
        have hkq : ¬ k = k0 := fun hh => h hh.symm
        simp [hkq]
      · simp [hq, ih]

theorem containsKey_iff_mem (e : MEvent) (k : String) :
    containsKey e k = true ↔ k ∈ evKeys e := by
  induction e with
  | nil => simp [containsKey, lookupEv, evKeys]
  | cons p rest ih =>
    obtain ⟨k0, v0⟩ := p
    by_cases h : k0 = k
    · subst h
      simp [containsKey, lookupEv, evKeys]
    · have h2 : ¬ k = k0 := fun hh => h hh.symm
      simp [containsKey, lookupEv, evKeys, h, h2] at ih ⊢
      exact ih

theorem pyGet_of_not_containsKey (e : MEvent) (k : String)
    (h : containsKey e k = false) : pyGet e k = .pyNone := by
  unfold containsKey at h
  unfold pyGet
  cases hl : lookupEv e k with
  | none => rfl
  | some v => rw [hl] at h; simp at h

theorem keysEqB_true_iff (a b : MEvent) :
    keysEqB a b = true ↔ ∀ k, containsKey a k = containsKey b k := by
  unfold keysEqB
  rw [Bool.and_eq_true, List.all_eq_true, List.all_eq_true]
  constructor
  · rintro ⟨hab, hba⟩ k
    cases ha : containsKey a k with
    | true =>
      have : k ∈ evKeys a := (containsKey_iff_mem a k).mp ha
      exact (hab k this).symm
    | false =>
      cases hb : containsKey b k with
      | true =>
        have : k ∈ evKeys b := (containsKey_iff_mem b k).mp hb
        rw [hba k this] at ha
        exact absurd ha (by simp)
      | false => rfl
  · intro h
    constructor
    · intro k hk
      rw [← h k]
      exact (containsKey_iff_mem a k).mpr hk
    · intro k hk
      rw [h k]
      exact (containsKey_iff_mem b k).mpr hk

theorem canonEqB_true_iff (a b : MEvent) :
    canonEqB a b = true ↔
      (∀ k, containsKey a k = containsKey b k) ∧
      (∀ k, unpack_value (pyGet a k) = unpack_value (pyGet b k)) := by
  unfold canonEqB
  rw [Bool.and_eq_true, keysEqB_true_iff, List.all_eq_true]
  constructor
  · rintro ⟨hkeys, hvals⟩
    refine ⟨hkeys, fun k => ?_⟩
    cases ha : containsKey a k with
    | true =>
      have hmem : k ∈ evKeys a := (containsKey_iff_mem a k).mp ha
      have := hvals k hmem
      exact of_decide_eq_true this
    | false =>
      have hb : containsKey b k = false := by rw [← hkeys k]; exact ha
      rw [pyGet_of_not_containsKey a k ha, pyGet_of_not_containsKey b k hb]
  · rintro ⟨hkeys, hvals⟩
    exact ⟨hkeys, fun k _ => decide_eq_true (hvals k)⟩

theorem eventsEqB_true_iff (a b : MEvent) :
    eventsEqB a b = true ↔ ∀ k, lookupEv a k = lookupEv b k := by
  unfold eventsEqB
  rw [Bool.and_eq_true, keysEqB_true_iff, List.all_eq_true]
  constructor
  · rintro ⟨hkeys, hvals⟩ k
    cases ha : containsKey a k with
    | true =>
      have hmem : k ∈ evKeys a := (containsKey_iff_mem a k).mp ha
      exact of_decide_eq_true (hvals k hmem)
    | false =>
      have hb : containsKey b k = false := by rw [← hkeys k]; exact ha
      unfold containsKey at ha hb
      cases hla : lookupEv a k with
      | none =>
        cases hlb : lookupEv b k with
        | none => rfl
        | some v => rw [hlb] at hb; simp at hb
      | some v => rw [hla] at ha; simp at ha
  · intro h
    constructor
    · intro k
      unfold containsKey
      rw [h k]
    · intro k _
      exact decide_eq_true (h k)

theorem canonEqB_refl (e : MEvent) : canonEqB e e = true :=
  (canonEqB_true_iff e e).mpr ⟨fun _ => rfl, fun _ => rfl⟩

theorem eventsEqB_refl (e : MEvent) : eventsEqB e e = true :=
  (eventsEqB_true_iff e e).mpr (fun _ => rfl)

set_option maxHeartbeats 1000000 in
theorem mergeKeyStep_eq_keyDecision (s : Strategy) (b l u : MEvent) (now : Int)
    (merged : MEvent) (prop : String) :
    mergeKeyStep s b l u now merged prop =
      match keyDecision s b l u now prop with
      | .ok (some v) => .ok (setItem merged prop v)
      | .ok none => .ok merged
      | .error e => .error e := by
  cases s <;>
    (unfold mergeKeyStep keyDecision
     dsimp only
     split_ifs <;> first | rfl | simp_all)

set_option maxHeartbeats 1000000 in
theorem keyDecision_error_eq (s : Strategy) (b l u : MEvent) (now : Int)
    (prop : String) (e : MergeError)
    (h : keyDecision s b l u now prop = .error e) : e = .notImplemented := by
  cases s <;>
    (unfold keyDecision at h
     dsimp only at h
     split_ifs at h <;> simp_all)

set_option maxHeartbeats 1000000 in
theorem keyDecision_mergePref_ok (s : Strategy) (b l u : MEvent) (now : Int)
    (prop : String) (hs : s = .mergeOur ∨ s = .mergeUpstream) :
    ∃ r, keyDecision s b l u now prop = .ok r := by
  rcases hs with h | h <;>
    (subst h
     unfold keyDecision
     dsimp only
     split_ifs <;> exact ⟨_, rfl⟩)

theorem mergeLoop_error_of_conflict (s : Strategy) (b l u : MEvent) (now : Int) :
    ∀ (order : List String) (m : MEvent) (p : String) (e : MergeError),
      p ∈ order → keyDecision s b l u now p = .error e →
      mergeLoop s b l u now order m = .error .notImplemented := by
  intro order
  induction order with
  | nil => intro m p e hp; simp at hp
  | cons t rest ih =>
    intro m p e hp hdec
    unfold mergeLoop
    rw [mergeKeyStep_eq_keyDecision]
    cases hdt : keyDecision s b l u now t with
    | error e2 =>
      have := keyDecision_error_eq s b l u now t e2 hdt
      subst this
      rfl
    | ok r =>
      rcases List.mem_cons.mp hp with hpt | hpr
      · subst hpt; rw [hdt] at hdec; exact absurd hdec (by simp)
      · cases r with
        | some v => exact ih (setItem m t v) p e hpr hdec
        | none => exact ih m p e hpr hdec

theorem mergeLoop_ok_of_allOk (s : Strategy) (b l u : MEvent) (now : Int) :
    ∀ (order : List String) (m : MEvent),
      (∀ p ∈ order, ∃ r, keyDecision s b l u now p = .ok r) →
      ∃ final, mergeLoop s b l u now order m = .ok final := by
  intro order
  induction order with
  | nil => intro m _; exact ⟨m, rfl⟩
  | cons t rest ih =>
    intro m hall
    unfold mergeLoop
    rw [mergeKeyStep_eq_keyDecision]
    obtain ⟨r, hr⟩ := hall t (List.mem_cons_self t rest)
    rw [hr]
    have hrest : ∀ p ∈ rest, ∃ r2, keyDecision s b l u now p = .ok r2 :=
      fun p hp => hall p (List.mem_cons_of_mem t hp)
    cases r with
    | some v => exact ih (setItem m t v) hrest
    | none => exact ih m hrest

theorem mergeLoop_ok_lookup (s : Strategy) (b l u : MEvent) (now : Int) :
    ∀ (order : List String) (m final : MEvent), order.Nodup →
      mergeLoop s b l u now order m = .ok final →
      ∀ q, lookupEv final q =
        if q ∈ order then
          match keyDecision s b l u now q with
          | .ok (some v) => some v
          | _ => lookupEv m q
        else lookupEv m q := by
  intro order
  induction order with
  | nil =>
    intro m final _ hok q
    unfold mergeLoop at hok
    injection hok with h
    subst h
    simp
  | cons t rest ih =>
    intro m final hnd hok q
    have hnd1 : rest.Nodup := hnd.of_cons
    have htnr : t ∉ rest := by
      rcases List.nodup_cons.mp hnd with ⟨h1, _⟩
      exact h1
    unfold mergeLoop at hok
    rw [mergeKeyStep_eq_keyDecision] at hok
    cases hdt : keyDecision s b l u now t with
    | error e2 => rw [hdt] at hok; exact absurd hok (by simp)
    | ok r =>
      rw [hdt] at hok
      cases r with
      | some v =>
        have hrec := ih (setItem m t v) final hnd1 hok q
        by_cases hq : q = t
        · subst hq
          have hqnr : q ∉ rest := htnr
          rw [hrec]
          simp only [if_neg hqnr, lookupEv_setItem, if_pos rfl]
          rw [hdt]
          simp [List.mem_cons]
        · rw [hrec]
          by_cases hqr : q ∈ rest
          · simp only [if_pos hqr, if_pos (List.mem_cons.mpr (Or.inr hqr))]
            cases hdq : keyDecision s b l u now q with
            | ok r2 =>
              cases r2 with
              | some w => rfl
              | none =>
                rw [lookupEv_setItem]
                have : ¬ t = q := fun hh => hq hh.symm
                simp [this]
            | error e3 =>
              rw [lookupEv_setItem]
              have : ¬ t = q := fun hh => hq hh.symm
              simp [this]
          · have hqnc : q ∉ t :: rest := by
              simp [List.mem_cons, hq, hqr]
            simp only [if_neg hqr, if_neg hqnc]
            rw [lookupEv_setItem]
            have : ¬ t = q := fun hh => hq hh.symm
            simp [this]
      | none =>
        have hrec := ih m final hnd1 hok q
        by_cases hq : q = t
        · subst hq
          have hqnr : q ∉ rest := htnr
          rw [hrec]
          simp only [if_neg hqnr]
          rw [if_pos (List.mem_cons_self q rest), hdt]
        · rw [hrec]
          by_cases hqr : q ∈ rest
          · simp only [if_pos hqr, if_pos (List.mem_cons.mpr (Or.inr hqr))]
          · have hqnc : q ∉ t :: rest := by
              simp [List.mem_cons, hq, hqr]
            simp only [if_neg hqr, if_neg hqnc]

theorem merge_events_ok_lookup (s : Strategy) (b l u : MEvent) (now : Int)
    (order : List String) (m : MEvent) (hnd : order.Nodup)
    (hearly : (canonEqB b l && canonEqB l u) = false)
    (hm : merge_events s b l u now order = .ok m) :
    ∀ q, lookupEv m q =
      if q ∈ order then
        match keyDecision s b l u now q with
        | .ok (some v) => some v
        | _ => none
      else none := by
  unfold merge_events at hm
  simp only [hearly, Bool.false_eq_true, if_false] at hm
  intro q
  have h := mergeLoop_ok_lookup s b l u now order [] m hnd hm q
  simpa [lookupEv] using h

theorem merge_events_mergePref_ok (s : Strategy) (b l u : MEvent) (now : Int)
    (order : List String) (hs : s = .mergeOur ∨ s = .mergeUpstream) :
    ∃ m, merge_events s b l u now order = .ok m := by
  unfold merge_events
  by_cases hc : (canonEqB b l && canonEqB l u) = true
  · simp only [hc, if_true]
    exact ⟨b, rfl⟩
  · simp only [Bool.not_eq_true] at hc
    simp only [hc, Bool.false_eq_true, if_false]
    exact mergeLoop_ok_of_allOk s b l u now order []
      (fun p _ => keyDecision_mergePref_ok s b l u now p hs)

theorem merge_events_error_of_conflict (s : Strategy) (b l u : MEvent) (now : Int)
    (order : List String) (p : String) (e : MergeError)
    (hearly : (canonEqB b l && canonEqB l u) = false)
    (hp : p ∈ order) (hdec : keyDecision s b l u now p = .error e) :
    merge_events s b l u now order = .error .notImplemented := by
  unfold merge_events
  simp only [hearly, Bool.false_eq_true, if_false]
  exact mergeLoop_error_of_conflict s b l u now order [] p e hp hdec

theorem lookupEv_eq_pyGet_of_contains (e : MEvent) (k : String)
    (h : containsKey e k = true) : lookupEv e k = some (pyGet e k) := by
  unfold containsKey at h
  unfold pyGet
  cases hl : lookupEv e k with
  | none => rw [hl] at h; simp at h
  | some v => simp

theorem canonEqB_and_false_of_lb (b l u : MEvent) (k : String)
    (hlb : unpack_value (pyGet l k) ≠ unpack_value (pyGet b k)) :
    (canonEqB b l && canonEqB l u) = false := by
  cases hbl : canonEqB b l with
  | false => simp [hbl]
  | true =>
    obtain ⟨_, hvals⟩ := (canonEqB_true_iff b l).mp hbl
    exact absurd (hvals k).symm hlb

/-- C9: for a key other than `LAST-MODIFIED` on which upstream canonically
agrees with base while local differs, a successful three-way merge stores
local's raw value for that key when local carries it, and omits the key
when local deleted it. -/
theorem c9_one_sided_local_edit (s : Strategy) (b l u m : MEvent) (now : Int)
    (order : List String) (k : String)
    (hnd : order.Nodup)
    (hcov : ∀ q, q ∈ order ↔ q ∈ evKeys b ++ evKeys l ++ evKeys u)
    (hk : k ≠ "LAST-MODIFIED")
    (hub : unpack_value (pyGet u k) = unpack_value (pyGet b k))
    (hlb : unpack_value (pyGet l k) ≠ unpack_value (pyGet b k))
    (hm : merge_events s b l u now order = .ok m) :
    lookupEv m k = if containsKey l k then lookupEv l k else none := by
  have hearly := canonEqB_and_false_of_lb b l u k hlb
  have hkord : k ∈ order := by
    rw [hcov k]
    cases hcl : containsKey l k with
    | true =>
      have : k ∈ evKeys l := (containsKey_iff_mem l k).mp hcl
      simp [List.mem_append, this]
    | false =>
      have hln : pyGet l k = .pyNone := pyGet_of_not_containsKey l k hcl
      have hbk : containsKey b k = true := by
        cases hcb : containsKey b k with
        | true => rfl
        | false =>
          have hbn : pyGet b k = .pyNone := pyGet_of_not_containsKey b k hcb
          rw [hln, hbn] at hlb
          exact absurd rfl hlb
      have : k ∈ evKeys b := (containsKey_iff_mem b k).mp hbk
      simp [List.mem_append, this]
  have hdec : keyDecision s b l u now k =
      .ok (if containsKey l k then some (pyGet l k) else none) := by
    unfold keyDecision
    dsimp only
    have h2 : unpack_value (pyGet l k) ≠ unpack_value (pyGet u k) := by
      intro ha
      exact hlb (ha.trans hub)
    have h1 : ¬ (unpack_value (pyGet l k) = unpack_value (pyGet u k) ∧
        unpack_value (pyGet u k) = unpack_value (pyGet b k)) := by
      rintro ⟨ha, _⟩
      exact h2 ha
    rw [if_neg hk, if_neg h1, if_neg h2, if_neg hlb, if_pos hub]
  have h := merge_events_ok_lookup s b l u now order m hnd hearly hm k
  rw [h, if_pos hkord, hdec]
  cases hcl : containsKey l k with
  | true => simp [lookupEv_eq_pyGet_of_contains l k hcl]
  | false => simp

theorem c9_witness :
    lookupEv [("UID", RawVal.vText "u1"), ("LOCATION", RawVal.vText "Berlin")] "LOCATION" =
      if containsKey [("UID", RawVal.vText "u1"), ("LOCATION", RawVal.vText "Berlin")] "LOCATION"
      then lookupEv [("UID", RawVal.vText "u1"), ("LOCATION", RawVal.vText "Berlin")] "LOCATION"
      else none :=
  c9_one_sided_local_edit .mergeOur
    [("UID", .vText "u1"), ("LOCATION", .vText "Rome")]
    [("UID", .vText "u1"), ("LOCATION", .vText "Berlin")]
    [("UID", .vText "u1"), ("LOCATION", .vText "Rome")]
    [("UID", .vText "u1"), ("LOCATION", .vText "Berlin")]
    7 ["UID", "LOCATION"] "LOCATION"
    (by decide)
    (by intro q; simp [evKeys]; tauto)
    (by decide) (by decide) (by decide) (by decide)

/-- C5: whenever the three-way merge actually reconciles (its inputs are not
all canonically equal, so a merged event is built) and succeeds, the merged
event carries `LAST-MODIFIED` exactly when that key occurs in the iterated
key set, and then its value is the current wall-clock time `now` — never a
value copied from base, local or upstream; the refresh is unconditional,
applied before every other per-key rule, under every strategy. -/
theorem c5_last_modified_refreshed (s : Strategy) (b l u m : MEvent) (now : Int)
    (order : List String) (hnd : order.Nodup)
    (hchanged : (canonEqB b l && canonEqB l u) = false)
    (hm : merge_events s b l u now order = .ok m) :
    lookupEv m "LAST-MODIFIED" =
      if "LAST-MODIFIED" ∈ order then some (.vDDD now) else none := by
  have hdec : keyDecision s b l u now "LAST-MODIFIED" = .ok (some (.vDDD now)) := by
    unfold keyDecision
    rw [if_pos rfl]
  have h := merge_events_ok_lookup s b l u now order m hnd hchanged hm "LAST-MODIFIED"
  rw [h]
  by_cases hin : "LAST-MODIFIED" ∈ order
  · simp [hin, hdec]
  · simp [hin]

theorem c5_witness :
    lookupEv [("SUMMARY", RawVal.vText "b"), ("LAST-MODIFIED", RawVal.vDDD 99)] "LAST-MODIFIED" =
      if "LAST-MODIFIED" ∈ ["SUMMARY", "LAST-MODIFIED"] then some (RawVal.vDDD 99) else none :=
  c5_last_modified_refreshed .mergeUpstream
    [("SUMMARY", .vText "a"), ("LAST-MODIFIED", .vDDD 1)]
    [("SUMMARY", .vText "a"), ("LAST-MODIFIED", .vDDD 1)]
    [("SUMMARY", .vText "b"), ("LAST-MODIFIED", .vDDD 2)]
    [("SUMMARY", .vText "b"), ("LAST-MODIFIED", .vDDD 99)]
    99 ["SUMMARY", "LAST-MODIFIED"]
    (by decide) (by decide) (by decide)

/-- C1 (amended): for every key `k` other than `LAST-MODIFIED` on which
base, local and upstream hold three pairwise canonically distinct values and
which is present in both local and upstream, the three-way reconciliation
with `merge,our` stores local's value at `k`, with `merge,upstream` stores
upstream's value at `k`, and with any of the three non-merge strategies (no
merge preference configured) it fails with a bare `NotImplementedError`
carrying neither the conflicting property nor the base event's UID. -/
theorem c1_amended_conflict_resolution (b l u : MEvent) (now : Int)
    (order : List String) (k : String)
    (hnd : order.Nodup)
    (hcov : ∀ q, q ∈ order ↔ q ∈ evKeys b ++ evKeys l ++ evKeys u)
    (hk : k ≠ "LAST-MODIFIED")
    (hlu : unpack_value (pyGet l k) ≠ unpack_value (pyGet u k))
    (hlb : unpack_value (pyGet l k) ≠ unpack_value (pyGet b k))
    (hub : unpack_value (pyGet u k) ≠ unpack_value (pyGet b k))
    (hcl : containsKey l k = true) (hcu : containsKey u k = true) :
    (∃ m, merge_events .mergeOur b l u now order = .ok m ∧
      lookupEv m k = lookupEv l k) ∧
    (∃ m, merge_events .mergeUpstream b l u now order = .ok m ∧
      lookupEv m k = lookupEv u k) ∧
    (∀ s : Strategy, s = .our ∨ s = .upstream ∨ s = .newer →
      merge_events s b l u now order = .error .notImplemented) := by
  have hearly := canonEqB_and_false_of_lb b l u k hlb
  have hkord : k ∈ order := by
    rw [hcov k]
    have : k ∈ evKeys l := (containsKey_iff_mem l k).mp hcl
    simp [List.mem_append, this]
  have hdec : ∀ s : Strategy, keyDecision s b l u now k =
      match s with
      | .mergeOur => .ok (some (pyGet l k))
      | .mergeUpstream => .ok (some (pyGet u k))
      | _ => .error .notImplemented := by
    intro s
    unfold keyDecision
    dsimp only
    have h1 : ¬ (unpack_value (pyGet l k) = unpack_value (pyGet u k) ∧
        unpack_value (pyGet u k) = unpack_value (pyGet b k)) := by
      rintro ⟨ha, _⟩
      exact hlu ha
    rw [if_neg hk, if_neg h1, if_neg hlu, if_neg hlb, if_neg hub,
        if_neg (by simp [hcl]), if_neg (by simp [hcu])]
    cases s <;> rfl
  refine ⟨?_, ?_, ?_⟩
  · obtain ⟨m, hm⟩ := merge_events_mergePref_ok .mergeOur b l u now order (Or.inl rfl)
    refine ⟨m, hm, ?_⟩
    have h := merge_events_ok_lookup .mergeOur b l u now order m hnd hearly hm k
    rw [h, if_pos hkord, hdec .mergeOur, lookupEv_eq_pyGet_of_contains l k hcl]
  · obtain ⟨m, hm⟩ := merge_events_mergePref_ok .mergeUpstream b l u now order (Or.inr rfl)
    refine ⟨m, hm, ?_⟩
    have h := merge_events_ok_lookup .mergeUpstream b l u now order m hnd hearly hm k
    rw [h, if_pos hkord, hdec .mergeUpstream, lookupEv_eq_pyGet_of_contains u k hcu]
  · intro s hs
    apply merge_events_error_of_conflict s b l u now order k .notImplemented hearly hkord
    rcases hs with h | h | h <;> subst h <;> rw [hdec]

theorem c1_amended_witness :
    (∃ m, merge_events .mergeOur
        [("UID", RawVal.vText "u1"), ("LOCATION", RawVal.vText "Rome")]
        [("UID", RawVal.vText "u1"), ("LOCATION", RawVal.vText "Berlin")]
        [("UID", RawVal.vText "u1"), ("LOCATION", RawVal.vText "Paris")]
        0 ["UID", "LOCATION"] = .ok m ∧
      lookupEv m "LOCATION" =
        lookupEv [("UID", RawVal.vText "u1"), ("LOCATION", RawVal.vText "Berlin")] "LOCATION") ∧
    (∃ m, merge_events .mergeUpstream
        [("UID", RawVal.vText "u1"), ("LOCATION", RawVal.vText "Rome")]
        [("UID", RawVal.vText "u1"), ("LOCATION", RawVal.vText "Berlin")]
        [("UID", RawVal.vText "u1"), ("LOCATION", RawVal.vText "Paris")]
        0 ["UID", "LOCATION"] = .ok m ∧
      lookupEv m "LOCATION" =
        lookupEv [("UID", RawVal.vText "u1"), ("LOCATION", RawVal.vText "Paris")] "LOCATION") ∧
    (∀ s : Strategy, s = .our ∨ s = .upstream ∨ s = .newer →
      merge_events s
        [("UID", RawVal.vText "u1"), ("LOCATION", RawVal.vText "Rome")]
        [("UID", RawVal.vText "u1"), ("LOCATION", RawVal.vText "Berlin")]
        [("UID", RawVal.vText "u1"), ("LOCATION", RawVal.vText "Paris")]
        0 ["UID", "LOCATION"] = .error .notImplemented) :=
  c1_amended_conflict_resolution
    [("UID", .vText "u1"), ("LOCATION", .vText "Rome")]
    [("UID", .vText "u1"), ("LOCATION", .vText "Berlin")]
    [("UID", .vText "u1"), ("LOCATION", .vText "Paris")]
    0 ["UID", "LOCATION"] "LOCATION"
    (by decide)
    (by intro q; simp [evKeys]; tauto)
    (by decide) (by decide) (by decide) (by decide) (by decide) (by decide)

/-- C1 counterexample: at a genuine single-property conflict with no merge
preference configured, the code fails with the bare `NotImplementedError`,
which is not an `UnresolvedConflict` naming the conflicting property
`LOCATION` and the base UID `u1` as the claim states; moreover for
`k = LAST-MODIFIED` with three pairwise distinct values, the favor-local
merge stores the current time, not local's value, so the claim's per-key
promise also fails at that key. -/
theorem c1_counterexample :
    (merge_events .our
        [("UID", RawVal.vText "u1"), ("LOCATION", RawVal.vText "Rome")]
        [("UID", RawVal.vText "u1"), ("LOCATION", RawVal.vText "Berlin")]
        [("UID", RawVal.vText "u1"), ("LOCATION", RawVal.vText "Paris")]
        0 ["UID", "LOCATION"] = .error .notImplemented) ∧
    (MergeError.notImplemented ≠ MergeError.unresolvedConflict "LOCATION" "u1") ∧
    (merge_events .mergeOur
        [("UID", RawVal.vText "u1"), ("LAST-MODIFIED", RawVal.vDDD 1)]
        [("UID", RawVal.vText "u1"), ("LAST-MODIFIED", RawVal.vDDD 2)]
        [("UID", RawVal.vText "u1"), ("LAST-MODIFIED", RawVal.vDDD 3)]
        100 ["UID", "LAST-MODIFIED"] =
      .ok [("UID", RawVal.vText "u1"), ("LAST-MODIFIED", RawVal.vDDD 100)]) ∧
    (lookupEv [("UID", RawVal.vText "u1"), ("LAST-MODIFIED", RawVal.vDDD 100)] "LAST-MODIFIED" ≠
      lookupEv [("UID", RawVal.vText "u1"), ("LAST-MODIFIED", RawVal.vDDD 2)] "LAST-MODIFIED") := by
  decide

theorem outcomesCanonEq_self (r : Except MergeError Outcome) :
    outcomesCanonEq r r = true := by
  cases r with
  | error e => simp [outcomesCanonEq]
  | ok o =>
    cases o with
    | noChange => rfl
    | write a => simp [outcomesCanonEq, canonEqB_refl]

theorem resolve_merge_eq (s : Strategy) (b l u : MEvent) (now : Int)
    (o : List String) (f : MEvent) (hs : s = .mergeOur ∨ s = .mergeUpstream)
    (hm : merge_events s b l u now o = .ok f) :
    resolve s b l u now o =
      if eventsEqB f l then .ok .noChange else .ok (.write f) := by
  rcases hs with h | h <;>
    (subst h
     unfold resolve applyStrategy
     rw [hm])

theorem resolve_merge_err (s : Strategy) (b l u : MEvent) (now : Int)
    (o : List String) (e : MergeError) (hs : s = .mergeOur ∨ s = .mergeUpstream)
    (hm : merge_events s b l u now o = .error e) :
    resolve s b l u now o = .error e := by
  rcases hs with h | h <;>
    (subst h
     unfold resolve applyStrategy
     rw [hm])

theorem c8MergeCase (s : Strategy) (b l u : MEvent) (now : Int)
    (o1 o2 : List String) (hnd1 : o1.Nodup) (hnd2 : o2.Nodup)
    (hmem : ∀ q, q ∈ o1 ↔ q ∈ o2)
    (hs : s = .mergeOur ∨ s = .mergeUpstream) :
    outcomesCanonEq (resolve s b l u now o1) (resolve s b l u now o2) = true := by
  by_cases hc : (canonEqB b l && canonEqB l u) = true
  · have hm1 : merge_events s b l u now o1 = .ok b := by
      unfold merge_events
      rw [if_pos hc]
    have hm2 : merge_events s b l u now o2 = .ok b := by
      unfold merge_events
      rw [if_pos hc]
    rw [resolve_merge_eq s b l u now o1 b hs hm1,
        resolve_merge_eq s b l u now o2 b hs hm2]
    exact outcomesCanonEq_self _
  · have hc2 : (canonEqB b l && canonEqB l u) = false := by
      simpa using hc
    by_cases hconf : ∃ p, p ∈ o1 ∧ ∃ e, keyDecision s b l u now p = .error e
    · obtain ⟨p, hp, e, he⟩ := hconf
      have hp2 : p ∈ o2 := (hmem p).mp hp
      have h1 := merge_events_error_of_conflict s b l u now o1 p e hc2 hp he
      have h2 := merge_events_error_of_conflict s b l u now o2 p e hc2 hp2 he
      rw [resolve_merge_err s b l u now o1 .notImplemented hs h1,
          resolve_merge_err s b l u now o2 .notImplemented hs h2]
      exact outcomesCanonEq_self _
    · push_neg at hconf
      have hall1 : ∀ p ∈ o1, ∃ r, keyDecision s b l u now p = .ok r := by
        intro p hp
        cases hd : keyDecision s b l u now p with
        | error e => exact absurd hd (hconf p hp e)
        | ok r => exact ⟨r, rfl⟩
      have hall2 : ∀ p ∈ o2, ∃ r, keyDecision s b l u now p = .ok r :=
        fun p hp => hall1 p ((hmem p).mpr hp)
      have hm1 : ∃ f, merge_events s b l u now o1 = .ok f := by
        unfold merge_events
        simp only [hc2, Bool.false_eq_true, if_false]
        exact mergeLoop_ok_of_allOk s b l u now o1 [] hall1
      have hm2 : ∃ f, merge_events s b l u now o2 = .ok f := by
        unfold merge_events
        simp only [hc2, Bool.false_eq_true, if_false]
        exact mergeLoop_ok_of_allOk s b l u now o2 [] hall2
      obtain ⟨f1, hf1⟩ := hm1
      obtain ⟨f2, hf2⟩ := hm2
      have hlook : ∀ q, lookupEv f1 q = lookupEv f2 q := by
        intro q
        rw [merge_events_ok_lookup s b l u now o1 f1 hnd1 hc2 hf1 q,
            merge_events_ok_lookup s b l u now o2 f2 hnd2 hc2 hf2 q]
        by_cases hq : q ∈ o1
        · rw [if_pos hq, if_pos ((hmem q).mp hq)]
        · rw [if_neg hq, if_neg (fun h => hq ((hmem q).mpr h))]
      have hB : eventsEqB f1 l = eventsEqB f2 l := by
        cases h1 : eventsEqB f1 l with
        | true =>
          have hv := (eventsEqB_true_iff f1 l).mp h1
          exact ((eventsEqB_true_iff f2 l).mpr
            (fun k => (hlook k).symm.trans (hv k))).symm
        | false =>
          cases h2 : eventsEqB f2 l with
          | false => rfl
          | true =>
            have hv := (eventsEqB_true_iff f2 l).mp h2
            have h1t := (eventsEqB_true_iff f1 l).mpr
              (fun k => (hlook k).trans (hv k))
            rw [h1t] at h1
            exact absurd h1 (by simp)
      have hcanon : canonEqB f1 f2 = true := by
        apply (canonEqB_true_iff f1 f2).mpr
        constructor
        · intro k
          unfold containsKey
          rw [hlook k]
        · intro k
          unfold pyGet
          rw [hlook k]
      rw [resolve_merge_eq s b l u now o1 f1 hs hf1,
          resolve_merge_eq s b l u now o2 f2 hs hf2, ← hB]
      cases hEB : eventsEqB f1 l with
      | true => simp [outcomesCanonEq]
      | false => simp [outcomesCanonEq, hcanon]

/-- C8 (amended): given the same canonical inputs, the same strategy and the
same observed wall-clock time, `resolve` produces canonically identical
results no matter which duplicate-free enumeration of the key set the
internal iteration follows — the set-iteration order never leaks into the
result.  (Two invocations at different clock times do differ, which is what
the counterexample exhibits.) -/
theorem c8_amended_key_order_determinism (s : Strategy) (b l u : MEvent)
    (now : Int) (o1 o2 : List String)
    (hnd1 : o1.Nodup) (hnd2 : o2.Nodup)
    (hmem : ∀ q, q ∈ o1 ↔ q ∈ o2) :
    outcomesCanonEq (resolve s b l u now o1) (resolve s b l u now o2) = true := by
  cases s with
  | our =>
    have h : resolve .our b l u now o1 = resolve .our b l u now o2 := rfl
    rw [h]
    exact outcomesCanonEq_self _
  | upstream =>
    have h : resolve .upstream b l u now o1 = resolve .upstream b l u now o2 := rfl
    rw [h]
    exact outcomesCanonEq_self _
  | newer =>
    have h : resolve .newer b l u now o1 = resolve .newer b l u now o2 := rfl
    rw [h]
    exact outcomesCanonEq_self _
  | mergeOur =>
    exact c8MergeCase .mergeOur b l u now o1 o2 hnd1 hnd2 hmem (Or.inl rfl)
  | mergeUpstream =>
    exact c8MergeCase .mergeUpstream b l u now o1 o2 hnd1 hnd2 hmem (Or.inr rfl)

theorem c8_amended_witness :
    outcomesCanonEq
      (resolve .mergeOur
        [("SUMMARY", RawVal.vText "a"), ("LAST-MODIFIED", RawVal.vDDD 0)]
        [("SUMMARY", RawVal.vText "a"), ("LAST-MODIFIED", RawVal.vDDD 0)]
        [("SUMMARY", RawVal.vText "b"), ("LAST-MODIFIED", RawVal.vDDD 0)]
        5 ["SUMMARY", "LAST-MODIFIED"])
      (resolve .mergeOur
        [("SUMMARY", RawVal.vText "a"), ("LAST-MODIFIED", RawVal.vDDD 0)]
        [("SUMMARY", RawVal.vText "a"), ("LAST-MODIFIED", RawVal.vDDD 0)]
        [("SUMMARY", RawVal.vText "b"), ("LAST-MODIFIED", RawVal.vDDD 0)]
        5 ["LAST-MODIFIED", "SUMMARY"]) = true :=
  c8_amended_key_order_determinism .mergeOur
    [("SUMMARY", .vText "a"), ("LAST-MODIFIED", .vDDD 0)]
    [("SUMMARY", .vText "a"), ("LAST-MODIFIED", .vDDD 0)]
    [("SUMMARY", .vText "b"), ("LAST-MODIFIED", .vDDD 0)]
    5 ["SUMMARY", "LAST-MODIFIED"] ["LAST-MODIFIED", "SUMMARY"]
    (by decide) (by decide)
    (by intro q; simp [List.mem_cons]; tauto)

/-- C8 counterexample: two invocations of `resolve` on canonically identical
inputs, the same strategy and the same key order, but observing different
wall-clock times (as two real runs do, since the merge stamps
`LAST-MODIFIED` with `datetime.now()`), produce outputs that are not
canonically identical — so output does depend on the invocation. -/
theorem c8_counterexample :
    outcomesCanonEq
      (resolve .mergeOur
        [("SUMMARY", RawVal.vText "a"), ("LAST-MODIFIED", RawVal.vDDD 0)]
        [("SUMMARY", RawVal.vText "a"), ("LAST-MODIFIED", RawVal.vDDD 0)]
        [("SUMMARY", RawVal.vText "b"), ("LAST-MODIFIED", RawVal.vDDD 0)]
        1 ["SUMMARY", "LAST-MODIFIED"])
      (resolve .mergeOur
        [("SUMMARY", RawVal.vText "a"), ("LAST-MODIFIED", RawVal.vDDD 0)]
        [("SUMMARY", RawVal.vText "a"), ("LAST-MODIFIED", RawVal.vDDD 0)]
        [("SUMMARY", RawVal.vText "b"), ("LAST-MODIFIED", RawVal.vDDD 0)]
        2 ["SUMMARY", "LAST-MODIFIED"]) = false := by
  decide

/-- C4 (amended): resolving the triple `(e, e, e)` yields the error-free
no-change outcome under `OUR`, `UPSTREAM`, `MERGE_OUR` and `MERGE_UPSTREAM`
for every event; under `NEWER`, however, it only does so when the event
carries both the `LAST-MODIFIED` key and the mistyped `LAST_MODIFIED` key the
source looks up — for an ordinary event it raises a `KeyError` instead. -/
theorem c4_amended_noop_merge (e : MEvent) (now : Int) (order : List String) :
    resolve .our e e e now order = .ok .noChange ∧
    resolve .upstream e e e now order = .ok .noChange ∧
    resolve .mergeOur e e e now order = .ok .noChange ∧
    resolve .mergeUpstream e e e now order = .ok .noChange ∧
    resolve .newer e e e now order =
      (if containsKey e "LAST-MODIFIED" then
        (if containsKey e "LAST_MODIFIED" then .ok .noChange
         else .error (.keyError "LAST_MODIFIED"))
       else .error (.keyError "LAST-MODIFIED")) := by
  have hmo : merge_events .mergeOur e e e now order = .ok e := by
    unfold merge_events
    rw [if_pos (by simp [canonEqB_refl])]
  have hmu : merge_events .mergeUpstream e e e now order = .ok e := by
    unfold merge_events
    rw [if_pos (by simp [canonEqB_refl])]
  refine ⟨rfl, ?_, ?_, ?_, ?_⟩
  · simp [resolve, applyStrategy, eventsEqB_refl]
  · rw [resolve_merge_eq .mergeOur e e e now order e (Or.inl rfl) hmo]
    simp [eventsEqB_refl]
  · rw [resolve_merge_eq .mergeUpstream e e e now order e (Or.inr rfl) hmu]
    simp [eventsEqB_refl]
  · cases h1 : lookupEv e "LAST-MODIFIED" with
    | none =>
      simp [resolve, applyStrategy, select_newer_event, getItem, containsKey, h1]
    | some a =>
      cases h2 : lookupEv e "LAST_MODIFIED" with
      | none =>
        simp [resolve, applyStrategy, select_newer_event, getItem, containsKey, h1, h2]
      | some b0 =>
        cases h3 : rawLt a b0 <;>
          simp [resolve, applyStrategy, select_newer_event, getItem, containsKey,
            h1, h2, h3, eventsEqB_refl]

theorem c4_amended_witness :
    resolve .our
      [("UID", RawVal.vText "u1"), ("LAST-MODIFIED", RawVal.vDDD 3)]
      [("UID", RawVal.vText "u1"), ("LAST-MODIFIED", RawVal.vDDD 3)]
      [("UID", RawVal.vText "u1"), ("LAST-MODIFIED", RawVal.vDDD 3)]
      9 ["UID", "LAST-MODIFIED"] = .ok .noChange ∧
    resolve .upstream
      [("UID", RawVal.vText "u1"), ("LAST-MODIFIED", RawVal.vDDD 3)]
      [("UID", RawVal.vText "u1"), ("LAST-MODIFIED", RawVal.vDDD 3)]
      [("UID", RawVal.vText "u1"), ("LAST-MODIFIED", RawVal.vDDD 3)]
      9 ["UID", "LAST-MODIFIED"] = .ok .noChange ∧
    resolve .mergeOur
      [("UID", RawVal.vText "u1"), ("LAST-MODIFIED", RawVal.vDDD 3)]
      [("UID", RawVal.vText "u1"), ("LAST-MODIFIED", RawVal.vDDD 3)]
      [("UID", RawVal.vText "u1"), ("LAST-MODIFIED", RawVal.vDDD 3)]
      9 ["UID", "LAST-MODIFIED"] = .ok .noChange ∧
    resolve .mergeUpstream
      [("UID", RawVal.vText "u1"), ("LAST-MODIFIED", RawVal.vDDD 3)]
      [("UID", RawVal.vText "u1"), ("LAST-MODIFIED", RawVal.vDDD 3)]
      [("UID", RawVal.vText "u1"), ("LAST-MODIFIED", RawVal.vDDD 3)]
      9 ["UID", "LAST-MODIFIED"] = .ok .noChange ∧
    resolve .newer
      [("UID", RawVal.vText "u1"), ("LAST-MODIFIED", RawVal.vDDD 3)]
      [("UID", RawVal.vText "u1"), ("LAST-MODIFIED", RawVal.vDDD 3)]
      [("UID", RawVal.vText "u1"), ("LAST-MODIFIED", RawVal.vDDD 3)]
      9 ["UID", "LAST-MODIFIED"] =
      (if containsKey [("UID", RawVal.vText "u1"), ("LAST-MODIFIED", RawVal.vDDD 3)]
          "LAST-MODIFIED" then
        (if containsKey [("UID", RawVal.vText "u1"), ("LAST-MODIFIED", RawVal.vDDD 3)]
            "LAST_MODIFIED" then .ok .noChange
         else .error (.keyError "LAST_MODIFIED"))
       else .error (.keyError "LAST-MODIFIED")) :=
  c4_amended_noop_merge
    [("UID", .vText "u1"), ("LAST-MODIFIED", .vDDD 3)]
    9 ["UID", "LAST-MODIFIED"]

/-- C4 counterexample: under the `NEWER` strategy, resolving `(e, e, e)` for
an ordinary event that carries `LAST-MODIFIED` (and no key literally spelled
`LAST_MODIFIED`) raises `KeyError("LAST_MODIFIED")` rather than yielding the
claimed error-free no-change. -/
theorem c4_counterexample :
    resolve .newer
      [("UID", RawVal.vText "u1"), ("LAST-MODIFIED", RawVal.vDDD 5)]
      [("UID", RawVal.vText "u1"), ("LAST-MODIFIED", RawVal.vDDD 5)]
      [("UID", RawVal.vText "u1"), ("LAST-MODIFIED", RawVal.vDDD 5)]
      0 ["UID", "LAST-MODIFIED"] = .error (.keyError "LAST_MODIFIED") := by
  decide

/-- C2: the `NEWER` strategy is claimed to compare the `LAST-MODIFIED`
property of local against that of upstream, with the strictly later side
(upstream here, 9 over 5) winning.  The code instead looks up the mistyped
key `LAST_MODIFIED` on upstream, so even with both events carrying
`LAST-MODIFIED` the comparison never happens: both the strategy selection
and the full resolution raise `KeyError("LAST_MODIFIED")`. -/
theorem c2_newer_mistyped_key_bug :
    select_newer_event
      [("UID", RawVal.vText "x"), ("LAST-MODIFIED", RawVal.vDDD 5)]
      [("UID", RawVal.vText "x"), ("LAST-MODIFIED", RawVal.vDDD 9)]
      = .error (.keyError "LAST_MODIFIED") ∧
    resolve .newer
      [("UID", RawVal.vText "x"), ("LAST-MODIFIED", RawVal.vDDD 5)]
      [("UID", RawVal.vText "x"), ("LAST-MODIFIED", RawVal.vDDD 5)]
      [("UID", RawVal.vText "x"), ("LAST-MODIFIED", RawVal.vDDD 9)]
      0 ["UID", "LAST-MODIFIED"] = .error (.keyError "LAST_MODIFIED") := by
  decide

/-- C3: the claim (and the spec) say the `match` operator uses the rule's
literal as the regular-expression pattern, anchored-matched against the
event's field value.  The code swaps the two: `filter_event` passes the rule
literal as `value1` and the field value as `value2`, and `apply_operator`
evaluates `re.match(value2, value1)`, so the field value becomes the
pattern.  With rule literal `app\w+` and `SUMMARY = "apple"`, the claimed
semantics matches (first conjunct) and would remove the event, but the
engine computes `re.match("apple", "app\w+")`, which fails (second
conjunct), so the event is retained (third conjunct).  The fourth conjunct
is the repository's own unit-test convention for `apply_operator`, which the
call site contradicts. -/
theorem c3_match_swapped_arguments_bug :
    (reMatch "app\\w+" "apple" = true) ∧
    (apply_operator "app\\w+" (.vText "apple") "match" = .ok false) ∧
    (filter_event [("UID", RawVal.vText "u1"), ("SUMMARY", RawVal.vText "apple")]
        [⟨some "SUMMARY", some "match", some "remove", some "app\\w+", none, none⟩] =
      .ok (some [("UID", RawVal.vText "u1"), ("SUMMARY", RawVal.vText "apple")])) ∧
    (apply_operator "apple" (.vText "app\\w+") "match" = .ok true) := by
  decide

/-- C6: the claim (and the spec's decision policy, echoed by the code's own
comment) say a matching `keep` rule always retains the event no matter where
matching `remove` rules sit.  The `remove`-then-`keep` order does retain the
event, but in the `keep`-then-`remove` order the second rule falls through
the `if action == "remove" and remove_event is None` chain into the `else`
branch and raises `ValueError("Unsupported action", "remove")` instead. -/
theorem c6_keep_wins_order_bug :
    (filter_event
        [("UID", RawVal.vText "u1"), ("SUMMARY", RawVal.vText "X"),
         ("LOCATION", RawVal.vText "Y")]
        [⟨some "SUMMARY", some "==", some "remove", some "X", none, none⟩,
         ⟨some "LOCATION", some "==", some "keep", some "Y", none, none⟩] =
      .ok (some [("UID", RawVal.vText "u1"), ("SUMMARY", RawVal.vText "X"),
         ("LOCATION", RawVal.vText "Y")])) ∧
    (filter_event
        [("UID", RawVal.vText "u1"), ("SUMMARY", RawVal.vText "X"),
         ("LOCATION", RawVal.vText "Y")]
        [⟨some "LOCATION", some "==", some "keep", some "Y", none, none⟩,
         ⟨some "SUMMARY", some "==", some "remove", some "X", none, none⟩] =
      .error (.unsupportedAction "remove")) := by
  decide

theorem filterGo_append (pre : List FilterRule) :
    ∀ (ev : MEvent) (rm : Option Bool) (rest : List FilterRule)
      (ev1 : MEvent) (rm1 : Option Bool),
      filterGo ev rm pre = .ok (ev1, rm1) →
      filterGo ev rm (pre ++ rest) = filterGo ev1 rm1 rest := by
  induction pre with
  | nil =>
    intro ev rm rest ev1 rm1 h
    simp only [filterGo] at h
    injection h with h
    rw [Prod.mk.injEq] at h
    obtain ⟨rfl, rfl⟩ := h
    rfl
  | cons t ts ih =>
    intro ev rm rest ev1 rm1 h
    simp only [List.cons_append, filterGo] at h ⊢
    cases hs : filterStep ev rm t with
    | error e => rw [hs] at h; exact absurd h (by simp)
    | ok p =>
      rw [hs] at h
      exact ih p.1 p.2 rest ev1 rm1 h

/-- C10: a rule lacking its `value` entry makes `filter_event` fail with the
missing-parameter `ValueError` as soon as the rule loop reaches it, even
when that rule's field is absent from the event — the `field not in event`
skip is only applied after the `"value" not in test` check, so a malformed
rule is never silently skipped. -/
theorem c10_missing_value_checked_before_field_skip
    (ev ev1 : MEvent) (rm1 : Option Bool)
    (pre post : List FilterRule) (r : FilterRule)
    (hval : r.value = none)
    (_hfield : containsKey ev1 (r.field.getD "SUMMARY") = false)
    (hpre : filterGo ev none pre = .ok (ev1, rm1)) :
    filter_event ev (pre ++ r :: post) = .error .missingParameter := by
  unfold filter_event
  rw [filterGo_append pre ev none (r :: post) ev1 rm1 hpre]
  simp [filterGo, filterStep, hval]

theorem c10_witness :
    filter_event [("UID", RawVal.vText "u1")]
      ([⟨some "LOCATION", some "==", some "remove", some "Y", none, none⟩] ++
        FilterRule.mk none none none none none none :: []) =
      .error .missingParameter :=
  c10_missing_value_checked_before_field_skip
    [("UID", RawVal.vText "u1")] [("UID", RawVal.vText "u1")] none
    [⟨some "LOCATION", some "==", some "remove", some "Y", none, none⟩] []
    (FilterRule.mk none none none none none none)
    rfl (by decide) (by decide)

/-- C7 (amended): the feed loop of `process_cal` runs `process_event` with
no surrounding `try`/`except`, so any error escaping `process_event` —
every filter error, and every non-`ValueError` merge error — aborts the
processing of all remaining events of the feed; only when `process_event`
returns normally does the loop continue with the next event. -/
theorem c7_amended_error_propagation (strategy : Strategy)
    (filter_list : List FilterRule)
    (keyOrder : MEvent → MEvent → MEvent → List String) (now : Int)
    (st : SyncState) (e : MEvent) (rest : List (String × MEvent)) :
    (∀ err, process_event strategy filter_list keyOrder now st e = .error err →
      process_cal strategy filter_list keyOrder now st (("VEVENT", e) :: rest) =
        .error err) ∧
    (∀ st1, process_event strategy filter_list keyOrder now st e = .ok st1 →
      process_cal strategy filter_list keyOrder now st (("VEVENT", e) :: rest) =
        process_cal strategy filter_list keyOrder now st1 rest) := by
  constructor
  · intro err h
    simp [process_cal, h]
  · intro st1 h
    simp [process_cal, h]

theorem c7_amended_witness :
    process_cal .our [⟨some "X", some "in", some "remove", some "val", none, none⟩]
      (fun _ _ _ => []) 0 ⟨[], []⟩
      [("VEVENT", [("UID", RawVal.vText "u1"), ("X", RawVal.vDDD 5)]),
       ("VEVENT", [("UID", RawVal.vText "u2"), ("SUMMARY", RawVal.vText "B")])] =
      .error (.filterErr .typeIncompatible) :=
  (c7_amended_error_propagation .our
      [⟨some "X", some "in", some "remove", some "val", none, none⟩]
      (fun _ _ _ => []) 0 ⟨[], []⟩
      [("UID", RawVal.vText "u1"), ("X", RawVal.vDDD 5)]
      [("VEVENT", [("UID", RawVal.vText "u2"), ("SUMMARY", RawVal.vText "B")])]).1
    (.filterErr .typeIncompatible) (by decide)

/-- C7 counterexample: a feed of two events where filtering the first raises
(the `in` operator hits a non-container field value, a `ValueError`): the
whole feed fails and the second event is never processed, although the same
second event alone is filtered, merged and written without any problem —
so an error on one event does abort the processing of the remaining
events. -/
theorem c7_counterexample :
    (process_cal .our [⟨some "X", some "in", some "remove", some "val", none, none⟩]
        (fun _ _ _ => []) 0 ⟨[], []⟩
        [("VEVENT", [("UID", RawVal.vText "u1"), ("X", RawVal.vDDD 5)]),
         ("VEVENT", [("UID", RawVal.vText "u2"), ("SUMMARY", RawVal.vText "B")])] =
      .error (.filterErr .typeIncompatible)) ∧
    (process_cal .our [⟨some "X", some "in", some "remove", some "val", none, none⟩]
        (fun _ _ _ => []) 0 ⟨[], []⟩
        [("VEVENT", [("UID", RawVal.vText "u2"), ("SUMMARY", RawVal.vText "B")])] =
      .ok ⟨[("u2.ics", [("UID", RawVal.vText "u2"), ("SUMMARY", RawVal.vText "B")])],
           [("u2", [("UID", RawVal.vText "u2"), ("SUMMARY", RawVal.vText "B")])]⟩) := by
  decide

end Ics2Radicale
